import Mathlib

/-!
Shallow embedding of the wrong-way-detection core of this repository
(`Yolo.ipynb`): the direction classifier `determine_direction` with its
bounded centroid history and lazily fixed detection line, and the per-frame
IOU-based track association loop of `process_video_for_wrong_way`.

Bounding-box coordinates are modelled as rationals (the Python code works on
floats coming from the detector); centroids are integer pixel pairs (the
Python code builds them with `int` truncation and `//`).
-/

set_option maxRecDepth 4000

namespace WrongWay

/-- Axis-aligned bounding box `[x1, y1, x2, y2]` in frame coordinates. -/
structure Box where
  x1 : ℚ
  y1 : ℚ
  x2 : ℚ
  y2 : ℚ
deriving DecidableEq

/-- `(bbox1[2]-bbox1[0]) * (bbox1[3]-bbox1[1])` — signed box area. -/
def boxArea (b : Box) : ℚ :=
  (b.x2 - b.x1) * (b.y2 - b.y1)

/-- `max(0, x_overlap) * max(0, y_overlap)` — the clamped intersection area. -/
def interArea (b1 b2 : Box) : ℚ :=
  max 0 (min b1.x2 b2.x2 - max b1.x1 b2.x1) * max 0 (min b1.y2 b2.y2 - max b1.y1 b2.y1)

/-- `area1 + area2 - intersection_area`. -/
def unionArea (b1 b2 : Box) : ℚ :=
  boxArea b1 + boxArea b2 - interArea b1 b2

/-- `iou = intersection_area / union_area if union_area > 0 else 0`. -/
def iou (b1 b2 : Box) : ℚ :=
  if 0 < unionArea b1 b2 then interArea b1 b2 / unionArea b1 b2 else 0

/-- Python `int()` on a rational: truncation toward zero. -/
def pyInt (q : ℚ) : ℤ :=
  if 0 ≤ q then ⌊q⌋ else ⌈q⌉

/-- `calculate_centroid`: `cx = (x1 + x2) // 2`, `cy = (y1 + y2) // 2` after
`map(int, bbox)`; Python `//` is floor division. -/
def calculate_centroid (b : Box) : ℤ × ℤ :=
  ((pyInt b.x1 + pyInt b.x2).fdiv 2, (pyInt b.y1 + pyInt b.y2).fdiv 2)

/-- `FLOW_TYPE`: `'vertical_flow'` or `'horizontal_flow'`. -/
inductive FlowType where
  | vertical
  | horizontal
deriving DecidableEq

/-- `EXPECTED_DIRECTION` and the raw direction labels. -/
inductive Direction where
  | down
  | up
  | right
  | left
deriving DecidableEq

/-- The non-null verdicts returned by `determine_direction`; the caller's
status map holds `Option Verdict`, with `none` standing for `unknown`. -/
inductive Verdict where
  | correct
  | wrong
deriving DecidableEq

/-- The configuration globals of the notebook that the classifier reads. -/
structure DirConfig where
  flowType : FlowType
  expected : Direction
  historySize : ℕ
  minMovement : ℤ
deriving DecidableEq

/-- `HISTORY_BUFFER_SIZE = 10`. -/
def HISTORY_BUFFER_SIZE : ℕ := 10

/-- `MIN_MOVEMENT_PIXELS = 10`. -/
def MIN_MOVEMENT_PIXELS : ℤ := 10

/-- The notebook's initial global configuration:
`FLOW_TYPE = 'vertical_flow'`, `EXPECTED_DIRECTION = 'down'`. -/
def defaultConfig : DirConfig :=
  ⟨FlowType.vertical, Direction.down, HISTORY_BUFFER_SIZE, MIN_MOVEMENT_PIXELS⟩

/-- Mutable classifier state: `object_centroid_history` (a dict of bounded
deques, oldest at the head, newest at the tail) and the lazily initialised
`DETECTION_LINE_Y` / `DETECTION_LINE_X` globals. -/
structure ClsState where
  histories : ℕ → List (ℤ × ℤ)
  lineY : Option ℤ
  lineX : Option ℤ

/-- Fresh classifier state: empty history dict, lines unset. -/
def initCls : ClsState :=
  ⟨fun _ => [], none, none⟩

/-- `deque(maxlen=cap).append(a)`: append at the tail, evicting the head when
the deque is already at capacity. -/
def dequeAppend (cap : ℕ) (xs : List (ℤ × ℤ)) (a : ℤ × ℤ) : List (ℤ × ℤ) :=
  if xs.length < cap then xs ++ [a] else xs.drop 1 ++ [a]

/-- The history for `oid` after appending the current centroid `c`. -/
def newHistory (cfg : DirConfig) (st : ClsState) (oid : ℕ) (c : ℤ × ℤ) : List (ℤ × ℤ) :=
  dequeAppend cfg.historySize (st.histories oid) c

/-- `current_centroid - old_centroid` along the configured flow axis, where
`old` is `history[0]` and `current` is `history[-1]`. -/
def axisDisp (cfg : DirConfig) (hist : List (ℤ × ℤ)) (c : ℤ × ℤ) : ℤ :=
  match cfg.flowType with
  | FlowType.vertical => (hist.getLastD c).2 - hist.headI.2
  | FlowType.horizontal => (hist.getLastD c).1 - hist.headI.1

/-- The lazy `DETECTION_LINE_Y = int(frame_height * 0.5)` /
`DETECTION_LINE_X = int(frame_width * 0.5)` initialisation. -/
def setLine (cfg : DirConfig) (fw fh : ℕ) (st : ClsState) : ClsState :=
  match cfg.flowType with
  | FlowType.vertical =>
      if st.lineY = none then { st with lineY := some ((fh / 2 : ℕ) : ℤ) } else st
  | FlowType.horizontal =>
      if st.lineX = none then { st with lineX := some ((fw / 2 : ℕ) : ℤ) } else st

/-- The raw direction label: for `abs(d) > MIN_MOVEMENT_PIXELS` along the flow
axis, the sign of the displacement picks the label, else no label. -/
def dirOf (cfg : DirConfig) (dx dy : ℤ) : Option Direction :=
  match cfg.flowType with
  | FlowType.vertical =>
      if cfg.minMovement < |dy| then
        some (if 0 < dy then Direction.down else Direction.up) else none
  | FlowType.horizontal =>
      if cfg.minMovement < |dx| then
        some (if 0 < dx then Direction.right else Direction.left) else none

/-- The `is_wrong_way` flag: opposite raw direction together with the current
centroid on the expected-direction's origin side of the detection line. -/
def wrongFlag (cfg : DirConfig) (st : ClsState) (cur : ℤ × ℤ) (dir : Option Direction) : Bool :=
  match cfg.flowType, dir with
  | _, none => false
  | FlowType.vertical, some d =>
      (decide (cfg.expected = Direction.down) && decide (d = Direction.up)
        && decide (cur.2 < st.lineY.getD 0)) ||
      (decide (cfg.expected = Direction.up) && decide (d = Direction.down)
        && decide (st.lineY.getD 0 < cur.2))
  | FlowType.horizontal, some d =>
      (decide (cfg.expected = Direction.right) && decide (d = Direction.left)
        && decide (cur.1 < st.lineX.getD 0)) ||
      (decide (cfg.expected = Direction.left) && decide (d = Direction.right)
        && decide (st.lineX.getD 0 < cur.1))

/-- `determine_direction(object_id, current_centroid, frame_width, frame_height)`:
append to the history deque, abstain below two samples, lazily fix the
detection line, derive a raw direction from `history[-1] - history[0]` along
the flow axis, and return `'wrong' if is_wrong_way else 'correct' if direction
else None`. -/
def determine_direction (cfg : DirConfig) (fw fh : ℕ) (st : ClsState) (oid : ℕ)
    (c : ℤ × ℤ) : ClsState × Option Verdict :=
  let hist := newHistory cfg st oid c
  let st1 : ClsState := { st with histories := fun j => if j = oid then hist else st.histories j }
  if hist.length < 2 then (st1, none)
  else
    let st2 := setLine cfg fw fh st1
    let cur := hist.getLastD c
    let old := hist.headI
    let dir := dirOf cfg (cur.1 - old.1) (cur.2 - old.2)
    let w := wrongFlag cfg st2 cur dir
    (st2, if w then some Verdict.wrong else if dir.isSome then some Verdict.correct else none)

/-- A detection record of `current_frame_detections`: bounding box, class id
and the centroid computed from the box (confidence is carried by the Python
dict but never read downstream, so it is dropped here). -/
structure Det where
  bbox : Box
  centroid : ℤ × ℤ
  cls : ℕ
deriving DecidableEq

/-- A raw detector output before the orchestrator attaches a centroid. -/
structure RawDet where
  bbox : Box
  cls : ℕ
deriving DecidableEq

/-- Building one entry of `current_frame_detections` from a detector box. -/
def mkDet (r : RawDet) : Det :=
  ⟨r.bbox, calculate_centroid r.bbox, r.cls⟩

/-- One value of the `tracked_objects` dict: current box, centroid, class and
`last_seen_frame`. -/
structure TrackData where
  bbox : Box
  centroid : ℤ × ℤ
  cls : ℕ
  lastSeen : ℕ
deriving DecidableEq

/-- The tracked-object payload built from a matched or fresh detection. -/
def detToTrack (frameIdx : ℕ) (d : Det) : TrackData :=
  ⟨d.bbox, d.centroid, d.cls, frameIdx⟩

/-- The inner loop of the association step: scan the enumerated detections,
skip indices already in `matched_current_indices`, and keep the first
detection whose IOU strictly exceeds the best so far (`iou > max_iou`). -/
def findBest (b : Box) (matched : List ℕ) :
    List (ℕ × Det) → Option (ℕ × Det) × ℚ → Option (ℕ × Det) × ℚ
  | [], acc => acc
  | (i, d) :: rest, acc =>
      if i ∈ matched then findBest b matched rest acc
      else if acc.2 < iou b d.bbox then findBest b matched rest (some (i, d), iou b d.bbox)
      else findBest b matched rest acc

/-- The best candidate for one track: `best_match_idx` / `max_iou` after the
scan, started from `(-1, 0.0)`. -/
def bestOf (dets : List Det) (matched : List ℕ) (b : Box) : Option (ℕ × Det) × ℚ :=
  findBest b matched dets.enum (none, 0)

/-- The body of `for obj_id, obj_data in tracked_objects.items()`: on a match
(`best_match_idx != -1 and max_iou > 0.3`) overwrite the track from the
detection and consume the index; otherwise keep the track unchanged exactly
when `frame_idx - last_seen_frame < grace`. -/
def assocOne (frameIdx grace : ℕ) (dets : List Det)
    (acc : List (ℕ × TrackData) × List ℕ) (t : ℕ × TrackData) :
    List (ℕ × TrackData) × List ℕ :=
  match bestOf dets acc.2 t.2.bbox with
  | (some (i, d), mi) =>
      if (3 / 10 : ℚ) < mi then
        (acc.1 ++ [(t.1, detToTrack frameIdx d)], acc.2 ++ [i])
      else if (frameIdx : ℤ) - (t.2.lastSeen : ℤ) < (grace : ℤ) then
        (acc.1 ++ [(t.1, t.2)], acc.2)
      else (acc.1, acc.2)
  | (none, _) =>
      if (frameIdx : ℤ) - (t.2.lastSeen : ℤ) < (grace : ℤ) then
        (acc.1 ++ [(t.1, t.2)], acc.2)
      else (acc.1, acc.2)

/-- The whole matching loop over the live tracks, in dict insertion order,
producing `new_tracked_objects` so far and `matched_current_indices`. -/
def assocTracks (frameIdx grace : ℕ) (dets : List Det)
    (tracked : List (ℕ × TrackData)) : List (ℕ × TrackData) × List ℕ :=
  tracked.foldl (assocOne frameIdx grace dets) ([], [])

/-- The spawning loop: every enumerated detection whose index is not in
`matched_current_indices` becomes a new track under `next_object_id`,
post-incrementing the counter. -/
def spawnNew (frameIdx : ℕ) (matched : List ℕ) :
    List (ℕ × Det) → ℕ → List (ℕ × TrackData) × ℕ
  | [], nid => ([], nid)
  | (i, d) :: rest, nid =>
      if i ∈ matched then spawnNew frameIdx matched rest nid
      else
        let r := spawnNew frameIdx matched rest (nid + 1)
        ((nid, detToTrack frameIdx d) :: r.1, r.2)

/-- The per-stream mutable state of `process_video_for_wrong_way`:
`tracked_objects` (insertion-ordered), `next_object_id`, the classifier
globals, and `object_direction_status` (`none` = `unknown`). -/
structure CoreState where
  tracked : List (ℕ × TrackData)
  nextId : ℕ
  cls : ClsState
  statuses : ℕ → Option Verdict

/-- State at the start of a run: no tracks, counter 0, fresh globals. -/
def initCore : CoreState :=
  ⟨[], 0, initCls, fun _ => none⟩

/-- The per-track classification loop: call `determine_direction` for every
track of this frame's `tracked_objects`, overwriting
`object_direction_status[obj_id]` only on a non-null verdict. -/
def classifyAll (cfg : DirConfig) (fw fh : ℕ) :
    List (ℕ × TrackData) → ClsState × (ℕ → Option Verdict) → ClsState × (ℕ → Option Verdict)
  | [], acc => acc
  | (oid, td) :: rest, acc =>
      let r := determine_direction cfg fw fh acc.1 oid td.centroid
      let stat := match r.2 with
        | some v => fun j => if j = oid then some v else acc.2 j
        | none => acc.2
      classifyAll cfg fw fh rest (r.1, stat)

/-- One iteration of the frame loop: ingest the detections, associate them to
the live tracks, spawn tracks for the unconsumed ones, then classify every
surviving track. -/
def processFrame (cfg : DirConfig) (grace fw fh : ℕ) (s : CoreState) (frameIdx : ℕ)
    (raw : List RawDet) : CoreState :=
  let dets := raw.map mkDet
  let a := assocTracks frameIdx grace dets s.tracked
  let sp := spawnNew frameIdx a.2 dets.enum s.nextId
  let tracked := a.1 ++ sp.1
  let cl := classifyAll cfg fw fh tracked (s.cls, s.statuses)
  ⟨tracked, sp.2, cl.1, cl.2⟩

/-- Process the remaining frames, `frameIdx` counting up by one per frame. -/
def runFrom (cfg : DirConfig) (grace fw fh : ℕ) :
    CoreState → ℕ → List (List RawDet) → CoreState
  | s, _, [] => s
  | s, i, dets :: rest => runFrom cfg grace fw fh (processFrame cfg grace fw fh s i dets) (i + 1) rest

/-- A full run of the frame loop from the reset state, frames numbered from 0. -/
def runCore (cfg : DirConfig) (grace fw fh : ℕ) (frames : List (List RawDet)) : CoreState :=
  runFrom cfg grace fw fh initCore 0 frames

/-- The literal grace period of `frame_idx - obj_data['last_seen_frame'] < 5`. -/
def TRACK_GRACE_FRAMES : ℕ := 5

/-- The per-frame observable output: live track identities with their sticky
verdicts. -/
def frameOutput (s : CoreState) : List (ℕ × Option Verdict) :=
  s.tracked.map (fun p => (p.1, s.statuses p.1))

/-- The sequence of per-frame observable outputs of a run. -/
def runTrace (cfg : DirConfig) (grace fw fh : ℕ) :
    CoreState → ℕ → List (List RawDet) → List (List (ℕ × Option Verdict))
  | _, _, [] => []
  | s, i, dets :: rest =>
      let s1 := processFrame cfg grace fw fh s i dets
      frameOutput s1 :: runTrace cfg grace fw fh s1 (i + 1) rest

/-- Spec-side notion: the exact opposite of an expected direction. -/
def oppositeDir : Direction → Direction
  | Direction.down => Direction.up
  | Direction.up => Direction.down
  | Direction.right => Direction.left
  | Direction.left => Direction.right

/-- Spec-side notion: the current centroid lies on the expected-direction's
origin side of the boundary line (for expected `down` the region above the
line, for `up` below, for `right` to the left, for `left` to the right). -/
def originSide (e : Direction) (c : ℤ × ℤ) (line : ℤ) : Prop :=
  match e with
  | Direction.down => c.2 < line
  | Direction.up => line < c.2
  | Direction.right => c.1 < line
  | Direction.left => line < c.1

instance (e : Direction) (c : ℤ × ℤ) (line : ℤ) : Decidable (originSide e c line) :=
  match e with
  | Direction.down => inferInstanceAs (Decidable (c.2 < line))
  | Direction.up => inferInstanceAs (Decidable (line < c.2))
  | Direction.right => inferInstanceAs (Decidable (c.1 < line))
  | Direction.left => inferInstanceAs (Decidable (line < c.1))

/-- The raw direction label derived from the sign of the displacement along
the configured flow axis. -/
def rawDir (cfg : DirConfig) (disp : ℤ) : Direction :=
  match cfg.flowType with
  | FlowType.vertical => if 0 < disp then Direction.down else Direction.up
  | FlowType.horizontal => if 0 < disp then Direction.right else Direction.left

/-- The boundary-line position a call will use: the already fixed line if set,
else half the relevant first-frame dimension. -/
def effLine (cfg : DirConfig) (fw fh : ℕ) (st : ClsState) : ℤ :=
  match cfg.flowType with
  | FlowType.vertical => st.lineY.getD ((fh / 2 : ℕ) : ℤ)
  | FlowType.horizontal => st.lineX.getD ((fw / 2 : ℕ) : ℤ)

lemma dequeAppend_getLastD (cap : ℕ) (xs : List (ℤ × ℤ)) (a b : ℤ × ℤ) :
    (dequeAppend cap xs a).getLastD b = a := by
  unfold dequeAppend
  split <;> simp [List.getLastD_concat]

lemma setLine_histories (cfg : DirConfig) (fw fh : ℕ) (st : ClsState) :
    (setLine cfg fw fh st).histories = st.histories := by
  unfold setLine
  split <;> split <;> rfl

lemma setLine_lineY (cfg : DirConfig) (fw fh : ℕ) (st : ClsState)
    (h : cfg.flowType = FlowType.vertical) :
    (setLine cfg fw fh st).lineY = some (st.lineY.getD ((fh / 2 : ℕ) : ℤ)) := by
  unfold setLine
  rw [h]
  cases hys : st.lineY <;> simp [hys]

lemma setLine_lineX (cfg : DirConfig) (fw fh : ℕ) (st : ClsState)
    (h : cfg.flowType = FlowType.horizontal) :
    (setLine cfg fw fh st).lineX = some (st.lineX.getD ((fw / 2 : ℕ) : ℤ)) := by
  unfold setLine
  rw [h]
  cases hxs : st.lineX <;> simp [hxs]

/-- Core lemma about a deciding call: with at least two history entries and a
displacement strictly above the movement threshold, the verdict is exactly
`wrong` when the raw direction opposes the expected direction and the current
centroid is on the expected direction's origin side of the line, and
`correct` otherwise. -/
lemma determine_direction_decides (cfg : DirConfig) (fw fh : ℕ) (st : ClsState)
    (oid : ℕ) (c : ℤ × ℤ)
    (h2 : 2 ≤ (newHistory cfg st oid c).length)
    (hm : cfg.minMovement < |axisDisp cfg (newHistory cfg st oid c) c|) :
    (determine_direction cfg fw fh st oid c).2 =
      some (if rawDir cfg (axisDisp cfg (newHistory cfg st oid c) c) = oppositeDir cfg.expected
              ∧ originSide cfg.expected c (effLine cfg fw fh st)
            then Verdict.wrong else Verdict.correct) := by
  have hn2 : ¬ (newHistory cfg st oid c).length < 2 := not_lt.mpr h2
  have hlast : (newHistory cfg st oid c).getLastD c = c := dequeAppend_getLastD _ _ _ _
  cases hft : cfg.flowType
  case vertical =>
    have hD : axisDisp cfg (newHistory cfg st oid c) c
        = c.2 - (newHistory cfg st oid c).headI.2 := by
      simp only [axisDisp, hft, hlast]
    rw [hD] at hm
    simp only [determine_direction]
    rw [if_neg hn2]
    dsimp only
    simp only [dirOf, hft, hlast, hD]
    rw [if_pos hm]
    simp only [wrongFlag, hft]
    rw [setLine_lineY _ _ _ _ hft]
    cases hexp : cfg.expected <;>
      by_cases hd : (0 : ℤ) < c.2 - (newHistory cfg st oid c).headI.2 <;>
        simp [hd, hexp, rawDir, hft, oppositeDir, originSide, effLine, hD, apply_ite]
  case horizontal =>
    have hD : axisDisp cfg (newHistory cfg st oid c) c
        = c.1 - (newHistory cfg st oid c).headI.1 := by
      simp only [axisDisp, hft, hlast]
    rw [hD] at hm
    simp only [determine_direction]
    rw [if_neg hn2]
    dsimp only
    simp only [dirOf, hft, hlast, hD]
    rw [if_pos hm]
    simp only [wrongFlag, hft]
    rw [setLine_lineX _ _ _ _ hft]
    cases hexp : cfg.expected <;>
      by_cases hd : (0 : ℤ) < c.1 - (newHistory cfg st oid c).headI.1 <;>
        simp [hd, hexp, rawDir, hft, oppositeDir, originSide, effLine, hD, apply_ite]

/-- C1: in every deciding call (history has at least 2 entries after the
append and the displacement magnitude along the flow axis clears the
minimum-movement threshold), the verdict is `wrong` iff the raw direction is
the exact opposite of the expected direction and the current centroid lies on
the expected direction's origin side of the boundary line; in every other
deciding case the verdict is `correct`. -/
theorem determine_direction_wrong_iff (cfg : DirConfig) (fw fh : ℕ) (st : ClsState)
    (oid : ℕ) (c : ℤ × ℤ)
    (h2 : 2 ≤ (newHistory cfg st oid c).length)
    (hm : cfg.minMovement < |axisDisp cfg (newHistory cfg st oid c) c|) :
    ((determine_direction cfg fw fh st oid c).2 = some Verdict.wrong ↔
      (rawDir cfg (axisDisp cfg (newHistory cfg st oid c) c) = oppositeDir cfg.expected ∧
        originSide cfg.expected c (effLine cfg fw fh st)))
    ∧ ((determine_direction cfg fw fh st oid c).2 = some Verdict.correct ↔
      ¬ (rawDir cfg (axisDisp cfg (newHistory cfg st oid c) c) = oppositeDir cfg.expected ∧
        originSide cfg.expected c (effLine cfg fw fh st))) := by
  rw [determine_direction_decides cfg fw fh st oid c h2 hm]
  constructor <;> split_ifs with h <;> simp [h]

/-- C1 witness: the spec scenario — vertical flow, expected `down`, 400×300
frame, history [(50,200),(50,150),(50,90)] — yields verdict `wrong` on the
third call. -/
theorem determine_direction_wrong_iff_witness :
    (determine_direction defaultConfig 400 300
      (determine_direction defaultConfig 400 300
        (determine_direction defaultConfig 400 300 initCls 0 (50, 200)).1 0 (50, 150)).1
      0 (50, 90)).2 = some Verdict.wrong :=
  (determine_direction_wrong_iff defaultConfig 400 300
      (determine_direction defaultConfig 400 300
        (determine_direction defaultConfig 400 300 initCls 0 (50, 200)).1 0 (50, 150)).1
      0 (50, 90) (by decide) (by decide)).1.mpr (by decide)

/-- C3 counterexample: a call with two history entries whose displacement
magnitude equals `MIN_MOVEMENT_PIXELS` exactly returns `none`, because the
code tests `abs(dy) > MIN_MOVEMENT_PIXELS` strictly. -/
theorem determine_direction_eq_threshold_abstains :
    2 ≤ (newHistory defaultConfig
        (determine_direction defaultConfig 400 300 initCls 0 (0, 0)).1 0 (0, 10)).length
    ∧ |axisDisp defaultConfig
        (newHistory defaultConfig
          (determine_direction defaultConfig 400 300 initCls 0 (0, 0)).1 0 (0, 10)) (0, 10)|
        = defaultConfig.minMovement
    ∧ (determine_direction defaultConfig 400 300
        (determine_direction defaultConfig 400 300 initCls 0 (0, 0)).1 0 (0, 10)).2 = none := by
  decide

/-- C3 (amended): whenever, after appending the current centroid, the history
has at least 2 entries and the absolute displacement along the flow axis is
STRICTLY GREATER than the minimum-movement threshold, the call returns
`correct` or `wrong`, never `none`. -/
theorem determine_direction_decides_above (cfg : DirConfig) (fw fh : ℕ) (st : ClsState)
    (oid : ℕ) (c : ℤ × ℤ)
    (h2 : 2 ≤ (newHistory cfg st oid c).length)
    (hm : cfg.minMovement < |axisDisp cfg (newHistory cfg st oid c) c|) :
    (determine_direction cfg fw fh st oid c).2 = some Verdict.correct ∨
    (determine_direction cfg fw fh st oid c).2 = some Verdict.wrong := by
  rw [determine_direction_decides cfg fw fh st oid c h2 hm]
  split_ifs <;> simp

/-- C3 witness: the amended theorem applied to the spec's `correct` scenario's
third call. -/
theorem determine_direction_decides_above_witness :
    (determine_direction defaultConfig 400 300
      (determine_direction defaultConfig 400 300
        (determine_direction defaultConfig 400 300 initCls 0 (50, 50)).1 0 (50, 110)).1
      0 (50, 180)).2 = some Verdict.correct ∨
    (determine_direction defaultConfig 400 300
      (determine_direction defaultConfig 400 300
        (determine_direction defaultConfig 400 300 initCls 0 (50, 50)).1 0 (50, 110)).1
      0 (50, 180)).2 = some Verdict.wrong :=
  determine_direction_decides_above defaultConfig 400 300
    (determine_direction defaultConfig 400 300
      (determine_direction defaultConfig 400 300 initCls 0 (50, 50)).1 0 (50, 110)).1
    0 (50, 180) (by decide) (by decide)

/-- C9: the classifier abstains (`none`) whenever the history after the append
has fewer than 2 entries, for any centroid values, and also whenever the
absolute displacement along the flow axis is strictly below the
minimum-movement threshold. -/
theorem classify_abstains (cfg : DirConfig) (fw fh : ℕ) (st : ClsState) (oid : ℕ)
    (c : ℤ × ℤ) :
    ((newHistory cfg st oid c).length < 2 →
      (determine_direction cfg fw fh st oid c).2 = none)
    ∧ (|axisDisp cfg (newHistory cfg st oid c) c| < cfg.minMovement →
      (determine_direction cfg fw fh st oid c).2 = none) := by
  constructor
  · intro h
    simp only [determine_direction]
    rw [if_pos h]
  · intro h
    by_cases h2 : (newHistory cfg st oid c).length < 2
    · simp only [determine_direction]
      rw [if_pos h2]
    · have hlast : (newHistory cfg st oid c).getLastD c = c := dequeAppend_getLastD _ _ _ _
      have hnm : ¬ cfg.minMovement < |axisDisp cfg (newHistory cfg st oid c) c| :=
        not_lt.mpr h.le
      cases hft : cfg.flowType
      · have hd : ¬ cfg.minMovement < |c.2 - (newHistory cfg st oid c).headI.2| := by
          simpa only [axisDisp, hft, hlast] using hnm
        simp only [determine_direction]
        rw [if_neg h2]
        simp only [dirOf, hft, hlast]
        rw [if_neg hd]
        simp [wrongFlag, hft]
      · have hd : ¬ cfg.minMovement < |c.1 - (newHistory cfg st oid c).headI.1| := by
          simpa only [axisDisp, hft, hlast] using hnm
        simp only [determine_direction]
        rw [if_neg h2]
        simp only [dirOf, hft, hlast]
        rw [if_neg hd]
        simp [wrongFlag, hft]

/-- C9 witness: a first-ever call for a fresh track abstains. -/
theorem classify_abstains_witness :
    (determine_direction defaultConfig 400 300 initCls 0 (5, 5)).2 = none :=
  (classify_abstains defaultConfig 400 300 initCls 0 (5, 5)).1 (by decide)

/-- A sequence of classifier calls `(object_id, centroid, frame_w, frame_h)`. -/
def applyCalls (cfg : DirConfig) : ClsState → List (ℕ × (ℤ × ℤ) × ℕ × ℕ) → ClsState
  | st, [] => st
  | st, (oid, c, fw, fh) :: rest =>
      applyCalls cfg (determine_direction cfg fw fh st oid c).1 rest

lemma dequeAppend_length (cap : ℕ) (xs : List (ℤ × ℤ)) (a : ℤ × ℤ)
    (hcap : 1 ≤ cap) (h : xs.length ≤ cap) : (dequeAppend cap xs a).length ≤ cap := by
  unfold dequeAppend
  split
  · simp only [List.length_append, List.length_singleton]
    omega
  · simp only [List.length_append, List.length_singleton, List.length_drop]
    omega

lemma determine_direction_histories (cfg : DirConfig) (fw fh : ℕ) (st : ClsState)
    (oid : ℕ) (c : ℤ × ℤ) :
    (determine_direction cfg fw fh st oid c).1.histories =
      fun j => if j = oid then newHistory cfg st oid c else st.histories j := by
  simp only [determine_direction]
  split
  · rfl
  · simp only [setLine_histories]

/-- C7: for every track identity, over any sequence of classifier calls from a
state whose histories respect the capacity, the motion history length never
exceeds the configured capacity (append until full, then slide). -/
theorem history_never_exceeds_capacity (cfg : DirConfig) (st : ClsState)
    (hcap : 1 ≤ cfg.historySize)
    (hb : ∀ oid, (st.histories oid).length ≤ cfg.historySize)
    (calls : List (ℕ × (ℤ × ℤ) × ℕ × ℕ)) :
    ∀ oid, ((applyCalls cfg st calls).histories oid).length ≤ cfg.historySize := by
  induction calls generalizing st with
  | nil => exact hb
  | cons hd tl ih =>
      obtain ⟨oid, c, fw, fh⟩ := hd
      refine ih _ ?_
      intro j
      rw [determine_direction_histories]
      by_cases hj : j = oid
      · subst hj
        simp only [if_pos rfl, newHistory]
        exact dequeAppend_length _ _ _ hcap (hb j)
      · simp only [if_neg hj]
        exact hb j

/-- C7 witness: twelve calls for one identity at default capacity 10 keep the
history length at 10. -/
theorem history_never_exceeds_capacity_witness :
    ((applyCalls defaultConfig initCls
        (List.replicate 12 (0, ((5, 5) : ℤ × ℤ), 400, 300))).histories 0).length
      ≤ defaultConfig.historySize :=
  history_never_exceeds_capacity defaultConfig initCls (by decide)
    (fun oid => by simp [initCls]) (List.replicate 12 (0, ((5, 5) : ℤ × ℤ), 400, 300)) 0

/-- Sample box used by concrete witnesses. -/
def b0 : Box := ⟨0, 0, 10, 10⟩

/-- Sample detector output used by concrete witnesses. -/
def rd0 : RawDet := ⟨b0, 2⟩

/-- Sample detection record used by concrete witnesses. -/
def d0 : Det := ⟨b0, (5, 5), 2⟩

/-- Sample track payload (last matched at frame 0) used by concrete witnesses. -/
def td0 : TrackData := ⟨b0, (5, 5), 2, 0⟩

/-- C2 (amended): a live track whose best candidate fails (no candidate, or
best IOU not above 0.3) survives unchanged exactly when
`frame_idx - last_seen_frame < grace`, and is otherwise removed; the matched
set is untouched. -/
theorem unmatched_track_survival (frameIdx grace : ℕ) (dets : List Det)
    (acc : List (ℕ × TrackData) × List ℕ) (t : ℕ × TrackData)
    (h : (bestOf dets acc.2 t.2.bbox).1 = none ∨
      ¬ (3 / 10 : ℚ) < (bestOf dets acc.2 t.2.bbox).2) :
    assocOne frameIdx grace dets acc t =
      (if (frameIdx : ℤ) - (t.2.lastSeen : ℤ) < (grace : ℤ)
        then acc.1 ++ [(t.1, t.2)] else acc.1, acc.2) := by
  rcases hb : bestOf dets acc.2 t.2.bbox with ⟨bi, mi⟩
  cases bi with
  | none =>
      simp only [assocOne, hb]
      split <;> rfl
  | some p =>
      obtain ⟨i, d⟩ := p
      rcases h with h | h
      · rw [hb] at h
        cases h
      · rw [hb] at h
        simp only [assocOne, hb]
        rw [if_neg h]
        split <;> rfl

/-- C2 witness: an unmatched track inside its grace window survives unchanged. -/
theorem unmatched_track_survival_witness :
    assocOne 3 5 [] ([], []) (0, td0) = ([(0, td0)], []) := by
  rw [unmatched_track_survival 3 5 [] ([], []) (0, td0) (Or.inl rfl)]
  rfl

/-- C2 counterexample: with grace 5, a track matched last at frame 0 survives
only 4 consecutive unmatched frames and is destroyed ON its 5th consecutive
unmatched frame (frame index 5), so it never survives `track_grace_frames`
unmatched frames to be destroyed on a 6th. -/
theorem track_destroyed_on_grace_frame :
    ((runCore defaultConfig TRACK_GRACE_FRAMES 400 300
        ([rd0] :: List.replicate 4 [])).tracked.map Prod.fst = [0])
    ∧ (runCore defaultConfig TRACK_GRACE_FRAMES 400 300
        ([rd0] :: List.replicate 5 [])).tracked = [] := by
  decide

lemma findBest_not_mem (b : Box) (matched : List ℕ) (l : List (ℕ × Det))
    (acc : Option (ℕ × Det) × ℚ)
    (hacc : ∀ i d, acc.1 = some (i, d) → i ∉ matched) :
    ∀ i d, (findBest b matched l acc).1 = some (i, d) → i ∉ matched := by
  induction l generalizing acc with
  | nil => exact hacc
  | cons hd tl ih =>
      obtain ⟨j, e⟩ := hd
      simp only [findBest]
      by_cases hj : j ∈ matched
      · rw [if_pos hj]
        exact ih acc hacc
      · rw [if_neg hj]
        by_cases hlt : acc.2 < iou b e.bbox
        · rw [if_pos hlt]
          refine ih _ ?_
          intro i d hi
          simp only at hi
          obtain ⟨h1, _⟩ := Prod.mk.injEq .. ▸ Option.some.inj hi
          exact h1 ▸ hj
        · rw [if_neg hlt]
          exact ih acc hacc

lemma assocOne_matched_nodup (frameIdx grace : ℕ) (dets : List Det)
    (acc : List (ℕ × TrackData) × List ℕ) (t : ℕ × TrackData)
    (h : acc.2.Nodup) : ((assocOne frameIdx grace dets acc t).2).Nodup := by
  rcases hb : bestOf dets acc.2 t.2.bbox with ⟨bi, mi⟩
  cases bi with
  | none =>
      simp only [assocOne, hb]
      split <;> exact h
  | some p =>
      obtain ⟨i, d⟩ := p
      have hnm : i ∉ acc.2 :=
        findBest_not_mem t.2.bbox acc.2 dets.enum (none, 0) (by intro i d hi; cases hi) i d
          (by rw [bestOf] at hb; rw [hb])
      simp only [assocOne, hb]
      split
      · simp [List.nodup_append, h, hnm]
      · split <;> exact h

lemma assocTracks_fold_nodup (frameIdx grace : ℕ) (dets : List Det) :
    ∀ (tracked : List (ℕ × TrackData)) (acc : List (ℕ × TrackData) × List ℕ),
      acc.2.Nodup → ((tracked.foldl (assocOne frameIdx grace dets) acc).2).Nodup := by
  intro tracked
  induction tracked with
  | nil => intro acc h; exact h
  | cons t ts ih =>
      intro acc h
      exact ih _ (assocOne_matched_nodup frameIdx grace dets acc t h)

/-- C4: the association step processes tracks in insertion order with each
detection consumable by at most one track per frame (the consumed-index list
is duplicate-free for any input), and when two live tracks both have
above-threshold IOU with the frame's single detection, the earlier track in
iteration order claims it and the later one is left unmatched. -/
theorem first_claim_wins :
    (∀ (frameIdx grace : ℕ) (dets : List Det) (tracked : List (ℕ × TrackData)),
      ((assocTracks frameIdx grace dets tracked).2).Nodup)
    ∧ (∀ (frameIdx grace : ℕ) (d : Det) (t1 t2 : ℕ × TrackData),
        (3 / 10 : ℚ) < iou t1.2.bbox d.bbox →
        (3 / 10 : ℚ) < iou t2.2.bbox d.bbox →
        assocTracks frameIdx grace [d] [t1, t2] =
          ((t1.1, detToTrack frameIdx d) ::
            (if (frameIdx : ℤ) - (t2.2.lastSeen : ℤ) < (grace : ℤ)
              then [(t2.1, t2.2)] else []), [0])) := by
  constructor
  · intro frameIdx grace dets tracked
    exact assocTracks_fold_nodup frameIdx grace dets tracked ([], []) List.nodup_nil
  · intro frameIdx grace d t1 t2 h1 h2
    have h0 : (0 : ℚ) < iou t1.2.bbox d.bbox := lt_trans (by norm_num) h1
    simp only [assocTracks, List.foldl, assocOne, bestOf, List.enum, List.enumFrom,
      findBest, List.not_mem_nil, if_neg, if_pos h0, h1, if_true]
    simp [h0, h1]
    split <;> simp

/-- C4 witness: two overlapping tracks and one detection — the first-inserted
track claims it. -/
theorem first_claim_wins_witness :
    assocTracks 1 5 [d0] [(0, td0), (7, td0)] =
      ([(0, detToTrack 1 d0), (7, td0)], [0]) := by
  rw [first_claim_wins.2 1 5 d0 (0, td0) (7, td0) (by norm_num [iou, td0, d0, b0,
    unionArea, interArea, boxArea]) (by norm_num [iou, td0, d0, b0, unionArea,
    interArea, boxArea])]
  rfl

/-- C10: the consumed-index set grows only when a track's best candidate
actually clears the 0.3 threshold — and then by exactly that best index; on a
failed best candidate nothing the track examined is consumed. Every detection
index left unconsumed spawns a new track carrying that detection's payload. -/
theorem detection_consumed_only_on_match :
    (∀ (frameIdx grace : ℕ) (dets : List Det) (acc : List (ℕ × TrackData) × List ℕ)
        (t : ℕ × TrackData),
      (assocOne frameIdx grace dets acc t).2 =
        match (bestOf dets acc.2 t.2.bbox).1 with
        | some (i, _) =>
            if (3 / 10 : ℚ) < (bestOf dets acc.2 t.2.bbox).2 then acc.2 ++ [i] else acc.2
        | none => acc.2)
    ∧ (∀ (frameIdx : ℕ) (matched : List ℕ) (l : List (ℕ × Det)) (nid i : ℕ) (d : Det),
        (i, d) ∈ l → i ∉ matched →
        ∃ id, (id, detToTrack frameIdx d) ∈ (spawnNew frameIdx matched l nid).1) := by
  constructor
  · intro frameIdx grace dets acc t
    rcases hb : bestOf dets acc.2 t.2.bbox with ⟨bi, mi⟩
    cases bi with
    | none =>
        simp only [assocOne, hb]
        split <;> rfl
    | some p =>
        obtain ⟨i, d⟩ := p
        simp only [assocOne, hb]
        split
        · rfl
        · split <;> rfl
  · intro frameIdx matched l
    induction l with
    | nil => intro nid i d hmem; cases hmem
    | cons hd tl ih =>
        obtain ⟨j, e⟩ := hd
        intro nid i d hmem hnm
        by_cases hj : j ∈ matched
        · rcases List.mem_cons.mp hmem with heq | htl
          · obtain ⟨h1, _⟩ := Prod.mk.injEq .. ▸ heq
            exact absurd (h1 ▸ hj) hnm
          · simpa [spawnNew, hj] using ih nid i d htl hnm
        · rcases List.mem_cons.mp hmem with heq | htl
          · obtain ⟨_, h2⟩ := Prod.mk.injEq .. ▸ heq
            exact ⟨nid, by simp [spawnNew, hj, h2]⟩
          · obtain ⟨id, hid⟩ := ih (nid + 1) i d htl hnm
            exact ⟨id, by simp [spawnNew, hj]; right; exact hid⟩

/-- C10 witness: an unconsumed detection spawns a track with its payload. -/
theorem detection_consumed_only_on_match_witness :
    ∃ id, (id, detToTrack 0 d0) ∈ (spawnNew 0 [] [(0, d0)] 0).1 :=
  detection_consumed_only_on_match.2 0 [] [(0, d0)] 0 0 d0 (by decide)
    (List.not_mem_nil 0)

lemma interArea_nonneg (b1 b2 : Box) : 0 ≤ interArea b1 b2 :=
  mul_nonneg (le_max_left _ _) (le_max_left _ _)

lemma iou_nonneg (b1 b2 : Box) : 0 ≤ iou b1 b2 := by
  unfold iou
  split
  · exact div_nonneg (interArea_nonneg b1 b2) (le_of_lt (by assumption))
  · exact le_refl 0

lemma interArea_comm (b1 b2 : Box) : interArea b1 b2 = interArea b2 b1 := by
  simp [interArea, min_comm, max_comm]

lemma interArea_zero_left (b1 b2 : Box) (h : boxArea b1 = 0) : interArea b1 b2 = 0 := by
  rcases mul_eq_zero.mp h with h | h
  · have hw : min b1.x2 b2.x2 - max b1.x1 b2.x1 ≤ 0 := by
      have h1 : min b1.x2 b2.x2 ≤ b1.x2 := min_le_left _ _
      have h2 : b1.x1 ≤ max b1.x1 b2.x1 := le_max_left _ _
      have h3 : b1.x2 = b1.x1 := by linarith [sub_eq_zero.mp h]
      linarith
    unfold interArea
    rw [max_eq_left hw, zero_mul]
  · have hw : min b1.y2 b2.y2 - max b1.y1 b2.y1 ≤ 0 := by
      have h1 : min b1.y2 b2.y2 ≤ b1.y2 := min_le_left _ _
      have h2 : b1.y1 ≤ max b1.y1 b2.y1 := le_max_left _ _
      have h3 : b1.y2 = b1.y1 := by linarith [sub_eq_zero.mp h]
      linarith
    unfold interArea
    rw [max_eq_left hw, mul_zero]

lemma iou_zero_of_area_zero (b1 b2 : Box) (h : boxArea b1 = 0 ∨ boxArea b2 = 0) :
    iou b1 b2 = 0 := by
  have hi : interArea b1 b2 = 0 := by
    rcases h with h | h
    · exact interArea_zero_left b1 b2 h
    · rw [interArea_comm]
      exact interArea_zero_left b2 b1 h
  unfold iou
  split
  · rw [hi, zero_div]
  · rfl

lemma findBest_pos (b : Box) (matched : List ℕ) (l : List (ℕ × Det))
    (acc : Option (ℕ × Det) × ℚ) (hacc0 : 0 ≤ acc.2)
    (hacc : ∀ i d, acc.1 = some (i, d) → 0 < iou b d.bbox) :
    ∀ i d, (findBest b matched l acc).1 = some (i, d) → 0 < iou b d.bbox := by
  induction l generalizing acc with
  | nil => exact hacc
  | cons hd tl ih =>
      obtain ⟨j, e⟩ := hd
      simp only [findBest]
      by_cases hj : j ∈ matched
      · rw [if_pos hj]
        exact ih acc hacc0 hacc
      · rw [if_neg hj]
        by_cases hlt : acc.2 < iou b e.bbox
        · rw [if_pos hlt]
          refine ih _ (iou_nonneg b e.bbox) ?_
          intro i d hi
          obtain ⟨_, h2⟩ := Prod.mk.injEq .. ▸ Option.some.inj hi
          exact h2 ▸ lt_of_le_of_lt hacc0 hlt
        · rw [if_neg hlt]
          exact ih acc hacc0 hacc

/-- C8: the IOU computation is total and degenerate-safe — a non-positive
union area yields IOU 0 (the division is guarded), a zero-area box on either
side yields IOU 0 (hence never above the 0.3 match threshold), and a
zero-area detection is never the chosen best candidate of any track. -/
theorem iou_degenerate_safe :
    (∀ b1 b2 : Box, unionArea b1 b2 ≤ 0 → iou b1 b2 = 0)
    ∧ (∀ b1 b2 : Box, boxArea b1 = 0 ∨ boxArea b2 = 0 →
        iou b1 b2 = 0 ∧ ¬ (3 / 10 : ℚ) < iou b1 b2)
    ∧ (∀ (b : Box) (matched : List ℕ) (dets : List Det) (i : ℕ) (d : Det),
        boxArea d.bbox = 0 → (bestOf dets matched b).1 ≠ some (i, d)) := by
  refine ⟨?_, ?_, ?_⟩
  · intro b1 b2 h
    unfold iou
    rw [if_neg (not_lt.mpr h)]
  · intro b1 b2 h
    have hz := iou_zero_of_area_zero b1 b2 h
    exact ⟨hz, by rw [hz]; norm_num⟩
  · intro b matched dets i d hd hsome
    have hpos : 0 < iou b d.bbox :=
      findBest_pos b matched dets.enum (none, 0) (le_refl 0)
        (by intro i d hi; cases hi) i d (by rw [bestOf] at hsome; exact hsome)
    rw [iou_zero_of_area_zero b d.bbox (Or.inr hd)] at hpos
    exact lt_irrefl 0 hpos

/-- C8 witness: a zero-width box has IOU 0 with everything and cannot clear
the match threshold. -/
theorem iou_degenerate_safe_witness :
    iou ⟨0, 0, 0, 10⟩ b0 = 0 ∧ ¬ (3 / 10 : ℚ) < iou ⟨0, 0, 0, 10⟩ b0 :=
  iou_degenerate_safe.2.1 ⟨0, 0, 0, 10⟩ b0 (Or.inl (by norm_num [boxArea]))

lemma assocOne_fst (frameIdx grace : ℕ) (dets : List Det)
    (acc : List (ℕ × TrackData) × List ℕ) (t : ℕ × TrackData) :
    ((assocOne frameIdx grace dets acc t).1).map Prod.fst = acc.1.map Prod.fst ++ [t.1]
    ∨ ((assocOne frameIdx grace dets acc t).1).map Prod.fst = acc.1.map Prod.fst := by
  rcases hb : bestOf dets acc.2 t.2.bbox with ⟨bi, mi⟩
  cases bi with
  | none =>
      simp only [assocOne, hb]
      split
      · left; simp
      · right; rfl
  | some p =>
      obtain ⟨i, d⟩ := p
      simp only [assocOne, hb]
      split
      · left; simp
      · split
        · left; simp
        · right; rfl

lemma fold_assoc_ids (frameIdx grace : ℕ) (dets : List Det) :
    ∀ (tracked : List (ℕ × TrackData)) (acc : List (ℕ × TrackData) × List ℕ) (x : ℕ),
      x ∈ ((tracked.foldl (assocOne frameIdx grace dets) acc).1).map Prod.fst →
      x ∈ acc.1.map Prod.fst ∨ x ∈ tracked.map Prod.fst := by
  intro tracked
  induction tracked with
  | nil => intro acc x hx; exact Or.inl hx
  | cons t ts ih =>
      intro acc x hx
      rcases ih (assocOne frameIdx grace dets acc t) x hx with h | h
      · rcases assocOne_fst frameIdx grace dets acc t with he | he
        · rw [he] at h
          rcases List.mem_append.mp h with h | h
          · exact Or.inl h
          · simp only [List.mem_singleton] at h
            exact Or.inr (by simp [h])
        · rw [he] at h
          exact Or.inl h
      · exact Or.inr (List.mem_cons_of_mem _ h)

lemma assocTracks_ids (frameIdx grace : ℕ) (dets : List Det)
    (tracked : List (ℕ × TrackData)) (x : ℕ)
    (hx : x ∈ ((assocTracks frameIdx grace dets tracked).1).map Prod.fst) :
    x ∈ tracked.map Prod.fst := by
  rcases fold_assoc_ids frameIdx grace dets tracked ([], []) x hx with h | h
  · cases h
  · exact h

lemma spawnNew_bounds (frameIdx : ℕ) (matched : List ℕ) :
    ∀ (l : List (ℕ × Det)) (nid : ℕ),
      nid ≤ (spawnNew frameIdx matched l nid).2
      ∧ ∀ x ∈ ((spawnNew frameIdx matched l nid).1).map Prod.fst,
          nid ≤ x ∧ x < (spawnNew frameIdx matched l nid).2 := by
  intro l
  induction l with
  | nil =>
      intro nid
      exact ⟨le_refl _, by intro x hx; cases hx⟩
  | cons hd tl ih =>
      obtain ⟨j, e⟩ := hd
      intro nid
      by_cases hj : j ∈ matched
      · simpa [spawnNew, hj] using ih nid
      · have h1 := ih (nid + 1)
        constructor
        · simp only [spawnNew, if_neg hj]
          exact le_trans (Nat.le_succ nid) h1.1
        · intro x hx
          simp only [spawnNew, if_neg hj, List.map_cons, List.mem_cons] at hx
          rcases hx with rfl | hx
          · exact ⟨le_refl _, by
              simp only [spawnNew, if_neg hj]
              exact lt_of_lt_of_le (Nat.lt_succ_self x) h1.1⟩
          · have h2 := h1.2 x hx
            refine ⟨le_trans (Nat.le_succ nid) h2.1, ?_⟩
            simp only [spawnNew, if_neg hj]
            exact h2.2

lemma processFrame_ids (cfg : DirConfig) (grace fw fh : ℕ) (s : CoreState)
    (frameIdx : ℕ) (raw : List RawDet) :
    s.nextId ≤ (processFrame cfg grace fw fh s frameIdx raw).nextId
    ∧ ∀ x ∈ ((processFrame cfg grace fw fh s frameIdx raw).tracked).map Prod.fst,
        x ∈ (s.tracked).map Prod.fst ∨
          (s.nextId ≤ x ∧ x < (processFrame cfg grace fw fh s frameIdx raw).nextId) := by
  have hsp := spawnNew_bounds frameIdx
    (assocTracks frameIdx grace (raw.map mkDet) s.tracked).2
    ((raw.map mkDet).enum) s.nextId
  constructor
  · simpa only [processFrame] using hsp.1
  · intro x hx
    simp only [processFrame, List.map_append, List.mem_append] at hx
    rcases hx with hx | hx
    · exact Or.inl (assocTracks_ids frameIdx grace (raw.map mkDet) s.tracked x hx)
    · have h2 := hsp.2 x hx
      exact Or.inr ⟨h2.1, by simpa only [processFrame] using h2.2⟩

lemma runFrom_no_resurrection (cfg : DirConfig) (grace fw fh : ℕ) :
    ∀ (frames : List (List RawDet)) (s : CoreState) (i x : ℕ),
      (∀ p ∈ s.tracked, p.1 < s.nextId) → x < s.nextId →
      x ∉ (s.tracked).map Prod.fst →
      x ∉ ((runFrom cfg grace fw fh s i frames).tracked).map Prod.fst := by
  intro frames
  induction frames with
  | nil => intro s i x _ _ h; exact h
  | cons f fs ih =>
      intro s i x hInv hx hnm
      simp only [runFrom]
      obtain ⟨hle, hmem⟩ := processFrame_ids cfg grace fw fh s i f
      refine ih (processFrame cfg grace fw fh s i f) (i + 1) x ?_ (lt_of_lt_of_le hx hle) ?_
      · intro p hp
        rcases hmem p.1 (List.mem_map_of_mem Prod.fst hp) with h | h
        · obtain ⟨q, hq, hqe⟩ := List.mem_map.mp h
          exact lt_of_lt_of_le (hqe ▸ hInv q hq) hle
        · exact h.2
      · intro hmem1
        rcases hmem x hmem1 with h | h
        · exact hnm h
        · exact absurd hx (not_lt.mpr h.1)

/-- C6: given that every live identity is below the running counter, a frame
step never decreases the counter, re-establishes the bound, gives every
newly appearing identity a value at least the old counter (hence strictly
greater than every previously allocated identity), and an identity that was
allocated but is no longer live never reappears for the rest of the run. -/
theorem track_identities_fresh_never_reused (cfg : DirConfig) (grace fw fh : ℕ)
    (s : CoreState) (hInv : ∀ p ∈ s.tracked, p.1 < s.nextId) :
    (∀ (frameIdx : ℕ) (raw : List RawDet),
      s.nextId ≤ (processFrame cfg grace fw fh s frameIdx raw).nextId
      ∧ (∀ p ∈ (processFrame cfg grace fw fh s frameIdx raw).tracked,
          p.1 < (processFrame cfg grace fw fh s frameIdx raw).nextId)
      ∧ (∀ p ∈ (processFrame cfg grace fw fh s frameIdx raw).tracked,
          p.1 ∉ (s.tracked).map Prod.fst → s.nextId ≤ p.1))
    ∧ (∀ x, x < s.nextId → x ∉ (s.tracked).map Prod.fst →
        ∀ (i : ℕ) (frames : List (List RawDet)),
          x ∉ ((runFrom cfg grace fw fh s i frames).tracked).map Prod.fst) := by
  constructor
  · intro frameIdx raw
    obtain ⟨hle, hmem⟩ := processFrame_ids cfg grace fw fh s frameIdx raw
    refine ⟨hle, ?_, ?_⟩
    · intro p hp
      rcases hmem p.1 (List.mem_map_of_mem Prod.fst hp) with h | h
      · obtain ⟨q, hq, hqe⟩ := List.mem_map.mp h
        exact lt_of_lt_of_le (hqe ▸ hInv q hq) hle
      · exact h.2
    · intro p hp hnm
      rcases hmem p.1 (List.mem_map_of_mem Prod.fst hp) with h | h
      · exact absurd h hnm
      · exact h.1
  · intro x hx hnm i frames
    exact runFrom_no_resurrection cfg grace fw fh frames s i x hInv hx hnm

/-- C6 witness: an already retired identity (1, below the counter 3, not
live) never reappears over a further two-frame run that spawns a track. -/
theorem track_identities_fresh_never_reused_witness :
    1 ∉ ((runFrom defaultConfig 5 400 300 ⟨[], 3, initCls, fun _ => none⟩ 0
        [[rd0], []]).tracked).map Prod.fst :=
  (track_identities_fresh_never_reused defaultConfig 5 400 300
      ⟨[], 3, initCls, fun _ => none⟩ (by intro p hp; cases hp)).2
    1 (by decide) (by decide) 0 [[rd0], []]

/-- C5: the per-frame core is deterministic — equal configurations, equal
initial states and identical per-frame detection sequences produce identical
per-frame outputs (live identities with their verdicts) for every frame. -/
theorem core_deterministic (cfg1 cfg2 : DirConfig) (g1 g2 fw1 fw2 fh1 fh2 : ℕ)
    (s1 s2 : CoreState) (i1 i2 : ℕ) (fs1 fs2 : List (List RawDet))
    (hc : cfg1 = cfg2) (hg : g1 = g2) (hw : fw1 = fw2) (hh : fh1 = fh2)
    (hs : s1 = s2) (hi : i1 = i2) (hf : fs1 = fs2) :
    runTrace cfg1 g1 fw1 fh1 s1 i1 fs1 = runTrace cfg2 g2 fw2 fh2 s2 i2 fs2 := by
  subst hc
  subst hg
  subst hw
  subst hh
  subst hs
  subst hi
  subst hf
  rfl

/-- C5 witness: two identical replays of a two-frame stream coincide. -/
theorem core_deterministic_witness :
    runTrace defaultConfig TRACK_GRACE_FRAMES 400 300 initCore 0 [[rd0], []] =
      runTrace defaultConfig TRACK_GRACE_FRAMES 400 300 initCore 0 [[rd0], []] :=
  core_deterministic defaultConfig defaultConfig TRACK_GRACE_FRAMES TRACK_GRACE_FRAMES
    400 400 300 300 initCore initCore 0 0 [[rd0], []] [[rd0], []]
    rfl rfl rfl rfl rfl rfl rfl

end WrongWay
